import Mathlib

/-!
Verification development for the moodlebot repository.

JavaScript strings are modelled as lists of characters (`JStr`); JavaScript
numbers are modelled as exact rationals or reals where arithmetic matters.
Each definition is a shallow embedding of the correspondingly named function
of the source (src/utils/textProcessing.ts, src/utils/aiReadinessEvaluation.ts
as shipped in the current revision, and src/services/openai.ts).
-/

/-- JavaScript string, modelled as a list of characters. -/
abbrev JStr := List Char

/-- Whitespace test standing for the regex class `\s`. -/
def isWs (c : Char) : Bool := c.isWhitespace

/-- Sentence-ending characters used by the chunker regex `(?<=[.!?])\s+`. -/
def isSentEnd (c : Char) : Bool := c = '.' || c = '!' || c = '?'

/-- `String.prototype.trim`: drop leading and trailing whitespace. -/
def jsTrim (s : JStr) : JStr :=
  ((s.dropWhile isWs).reverse.dropWhile isWs).reverse

/-- Worker for `split(/\s+/)`.  The state is `some acc` while a piece is being
accumulated (reversed), and `none` while the greedy `\s+` separator run is
being consumed. -/
def splitWsGo : JStr → Option JStr → List JStr
  | [], none => [[]]
  | [], some acc => [acc.reverse]
  | c :: rest, none =>
    if isWs c then splitWsGo rest none else splitWsGo rest (some [c])
  | c :: rest, some acc =>
    if isWs c then acc.reverse :: splitWsGo rest none
    else splitWsGo rest (some (c :: acc))

/-- JavaScript `str.split(/\s+/)`. -/
def splitWs (s : JStr) : List JStr := splitWsGo s (some [])

/-- The lookbehind `(?<=[.!?])` of the sentence split: the head of the
reversed accumulator is the previously read character. -/
def lookbehindSentEnd : JStr → Bool
  | p :: _ => isSentEnd p
  | [] => false

/-- Worker for `split(/(?<=[.!?])\s+/)`: a maximal whitespace run whose first
character is preceded by a sentence-ending character separates pieces. -/
def splitSentencesGo : JStr → Option JStr → List JStr
  | [], none => [[]]
  | [], some acc => [acc.reverse]
  | c :: rest, none =>
    if isWs c then splitSentencesGo rest none
    else splitSentencesGo rest (some [c])
  | c :: rest, some acc =>
    if isWs c && lookbehindSentEnd acc then
      acc.reverse :: splitSentencesGo rest none
    else splitSentencesGo rest (some (c :: acc))

/-- JavaScript `text.split(/(?<=[.!?])\s+/)` of the chunker. -/
def splitSentences (s : JStr) : List JStr := splitSentencesGo s (some [])

/-- The inner word loop of `chunkText` (run when a single sentence exceeds
`chunkSize`): accumulate words into `currentPiece`, flushing `currentPiece.trim()`
whenever the next word would overflow.  Returns the flushed chunks in order. -/
def chunkWordLoop (chunkSize : ℕ) : List JStr → JStr → List JStr
  | [], currentPiece =>
    if currentPiece ≠ [] then [jsTrim currentPiece] else []
  | word :: words, currentPiece =>
    if (currentPiece ++ ' ' :: word).length > chunkSize then
      (if currentPiece ≠ [] then [jsTrim currentPiece] else []) ++
        chunkWordLoop chunkSize words word
    else
      chunkWordLoop chunkSize words
        (currentPiece ++ (if currentPiece ≠ [] then [' '] else []) ++ word)

/-- The sentence loop of `chunkText`: `currentChunk` accumulates short
sentences; long sentences go through the word loop (note that the word loop
flushes its pieces while `currentChunk` stays pending, exactly as in the
source, so pending text can be emitted after later material). -/
def chunkSentenceLoop (chunkSize : ℕ) : List JStr → JStr → List JStr
  | [], currentChunk =>
    if currentChunk ≠ [] then [jsTrim currentChunk] else []
  | sentence :: sentences, currentChunk =>
    if sentence.length > chunkSize then
      chunkWordLoop chunkSize (splitWs sentence) [] ++
        chunkSentenceLoop chunkSize sentences currentChunk
    else
      if currentChunk.length + sentence.length > chunkSize ∧ currentChunk.length > 0 then
        jsTrim currentChunk ::
          chunkSentenceLoop chunkSize sentences sentence
      else
        chunkSentenceLoop chunkSize sentences
          (currentChunk ++ (if currentChunk ≠ [] then [' '] else []) ++ sentence)

/-- `chunkText` from src/utils/textProcessing.ts. -/
def chunkText (text : JStr) (chunkSize : ℕ) : List JStr :=
  if text = [] ∨ text.length ≤ chunkSize then [text]
  else chunkSentenceLoop chunkSize (splitSentences text) []

/-- JavaScript `ToInt32`: wrap an integer into the signed 32-bit range, as the
`&` and `<<` operators do. -/
def toInt32 (n : ℤ) : ℤ := (n + 2 ^ 31) % 2 ^ 32 - 2 ^ 31

/-- One iteration of `simpleHash`: `hash = ((hash << 5) - hash) + char` followed
by `hash = hash & hash` (conversion to a 32-bit integer). -/
def simpleHashStep (h : ℤ) (c : Char) : ℤ :=
  toInt32 (toInt32 (h * 32) - h + c.toNat)

/-- `simpleHash` from src/utils/textProcessing.ts (`Math.abs` of the final
32-bit hash). -/
def simpleHash (w : JStr) : ℕ := (w.foldl simpleHashStep 0).natAbs

/-- JavaScript `str.toLowerCase()`. -/
def jsToLower (s : JStr) : JStr := s.map Char.toLower

/-- The dot-product loop of `calculateSimilarity`: `vec1[i] * vec2[i]` summed
over the indices of `vec1` (out-of-range reads yield `0`; the caller has
already enforced equal lengths). -/
noncomputable def dotProduct (v w : List ℝ) : ℝ :=
  ∑ i ∈ Finset.range v.length, v.getD i 0 * w.getD i 0

/-- `calculateSimilarity` from src/utils/textProcessing.ts: `none` models the
thrown `Vectors must have the same dimensions` error. -/
noncomputable def calculateSimilarity (v w : List ℝ) : Option ℝ :=
  if v.length = w.length then some (dotProduct v w) else none

/-- Sum of squared entries (the squared L2 norm). -/
noncomputable def sumSq (v : List ℝ) : ℝ := dotProduct v v

/-- Mathematical cosine similarity, the reference quantity named by the spec
for the order-preservation property of `calculateSimilarity`. -/
noncomputable def cosineSimilarity (v w : List ℝ) : ℝ :=
  dotProduct v w / (Real.sqrt (sumSq v) * Real.sqrt (sumSq w))

/-- `vector[index] += 1` of `createSimpleEmbedding`. -/
noncomputable def bumpAt (v : List ℝ) (i : ℕ) : List ℝ :=
  v.set i (v.getD i 0 + 1)

/-- The `reduce((sum, val) => sum + val * val, 0)` of `createSimpleEmbedding`. -/
noncomputable def sumSqFold (v : List ℝ) : ℝ :=
  v.foldl (fun s x => s + x * x) 0

/-- L2 norm (`Math.sqrt` of the sum of squares). -/
noncomputable def l2norm (v : List ℝ) : ℝ := Real.sqrt (sumSqFold v)

/-- `createSimpleEmbedding` from src/utils/textProcessing.ts: a 100-entry
term-frequency vector over `\s+`-separated lowercased words, normalized by its
magnitude unless the magnitude is zero. -/
noncomputable def createSimpleEmbedding (text : JStr) : List ℝ :=
  if text = [] then List.replicate 100 0
  else
    let words := splitWs (jsToLower text)
    let vector := words.foldl (fun v w => bumpAt v (simpleHash w % 100))
      (List.replicate 100 (0 : ℝ))
    let magnitude := l2norm vector
    if magnitude = 0 then vector else vector.map (fun val => val / magnitude)

/-- JavaScript `String.prototype.includes`: `sub` occurs contiguously in `s`. -/
def jsIncludes (s sub : JStr) : Bool :=
  (List.range (s.length + 1)).any (fun i => sub.isPrefixOf (s.drop i))

/-- Join a list of strings with a separator (JavaScript `Array.join`). -/
def joinSep (sep : JStr) (l : List JStr) : JStr := (l.intersperse sep).flatten

/-- One entry of the `evaluationDimensions` catalog of
src/utils/aiReadinessEvaluation.ts. -/
structure Dimension where
  id : String
  description : String
  importance : ℕ
deriving DecidableEq

/-- The `evaluationDimensions` catalog (insertion order of the object literal;
note the importances are already in descending order, so the stable
descending-importance sort applied by `generateNextQuestion` is the
identity). -/
def evaluationDimensions : List Dimension :=
  [⟨"context", "Understanding of the organization\x27s industry, size, and business objectives", 3⟩,
   ⟨"data", "Data infrastructure, quality, and management capabilities", 3⟩,
   ⟨"strategy", "AI strategy alignment with business goals and roadmap", 3⟩,
   ⟨"talent", "AI/ML talent, skills, and training programs", 2⟩,
   ⟨"technical", "Technical infrastructure and tools for AI implementation", 2⟩,
   ⟨"governance", "Data governance, ethics, and compliance frameworks", 2⟩,
   ⟨"experience", "Previous AI/ML project experience and outcomes", 1⟩]

/-- The fixed four-level `readinessLevels` set. -/
def readinessLevels : List String :=
  ["Exploring", "Developing", "Established", "Advanced"]

/-- JavaScript property access `evaluationDimensions[dim]`. -/
def dimLookup (dim : String) : Option Dimension :=
  evaluationDimensions.find? (fun d => d.id = dim)

/-- The `answers` record: an insertion-ordered string-keyed map. -/
abbrev Answers := List (String × JStr)

/-- JavaScript `obj[key] = value` on an insertion-ordered object. -/
def jsSet (m : Answers) (k : String) (v : JStr) : Answers :=
  if m.any (fun p => p.1 = k) then
    m.map (fun p => if p.1 = k then (k, v) else p)
  else m ++ [(k, v)]

/-- JavaScript `answers[key]` read. -/
def jsGet (m : Answers) (k : String) : Option JStr :=
  (m.find? (fun p => p.1 = k)).map (fun p => p.2)

/-- The `previousAnswers`/`currentTopicId` part of the `EvaluationContext`
object that `handleEvaluationMode` rebuilds each turn.  The service fields
`textChunks`/`csvChunks` are initialized to `[]` and never assigned anywhere
in src/services/openai.ts, so `preprocessedData.chunks` is always empty and
`findRelevantChunks` returns `[]` without touching any embedding; the
embedding of the evaluation flow is specialized to that (only reachable)
configuration. -/
structure EvalContext where
  previousAnswers : Answers
  currentTopicId : Option String
deriving DecidableEq

/-- The `${evaluationDimensions[dim].description}: ${answer}` block of the
prompts: looks up each answered dimension, throwing (modelled as
`Except.error`) the `TypeError` raised in the source when a key of `answers`
is not a catalog dimension.  The assembled text only feeds the external
completion service. -/
def buildAnswersBlock (answers : Answers) : Except Unit (List JStr) :=
  answers.mapM (fun p =>
    match dimLookup p.1 with
    | some d => .ok (d.description.toList ++ ": ".toList ++ p.2)
    | none => .error ())

/-- The fallback question returned by `generateNextQuestion` when the
completion call fails. -/
def fallbackQuestion (d : Dimension) : JStr :=
  "Could you tell me about your organization\x27s ".toList ++
    jsToLower d.description.toList ++ "?".toList

/-- `generateNextQuestion` from the current aiReadinessEvaluation module:
`none` means all dimensions are covered.  The external completion call is an
oracle (`Except.error` = the call failed, handled by the fallback).  On the
success path the source assigns `context.currentTopicId = nextDimension.id`,
mutating the context object it was passed; the updated context is therefore
returned alongside the question. -/
def generateNextQuestion (ctx : EvalContext) (oracle : Except Unit JStr) :
    Except Unit (Option JStr × EvalContext) :=
  let askedDimensions := ctx.previousAnswers.map (fun p => p.1)
  if askedDimensions.length ≥ evaluationDimensions.length then .ok (none, ctx)
  else
    let remainingDimensions :=
      evaluationDimensions.filter (fun d => ¬ askedDimensions.contains d.id)
    match remainingDimensions with
    | [] => .ok (none, ctx)
    | nextDimension :: _ =>
      match buildAnswersBlock ctx.previousAnswers with
      | .error e => .error e
      | .ok _ =>
        match oracle with
        | .ok content =>
          .ok (some (jsTrim content), { ctx with currentTopicId := some nextDimension.id })
        | .error _ => .ok (some (fallbackQuestion nextDimension), ctx)

/-- The positive lexical cues of `calculateDimensionScores`. -/
def hasPositiveIndicators (answer : JStr) : Bool :=
  jsIncludes (jsToLower answer) "yes".toList ||
    jsIncludes (jsToLower answer) "have".toList ||
    jsIncludes (jsToLower answer) "implemented".toList

/-- The negative lexical cues of `calculateDimensionScores`. -/
def hasNegativeIndicators (answer : JStr) : Bool :=
  jsIncludes (jsToLower answer) "no".toList ||
    jsIncludes (jsToLower answer) "limited".toList ||
    jsIncludes (jsToLower answer) "not yet".toList

/-- The per-answer score of `calculateDimensionScores`: length thresholds plus
positive/negative lexical cues, clamped to `[0, 5]`.  The `contextAlignment`
half-point boost requires a non-empty `relevantContext`, which requires
non-empty preprocessed chunks; those are always empty (see `EvalContext`), so
the boost branch is never taken. -/
def scoreAnswer (answer : JStr) : ℚ :=
  let base : ℚ :=
    if answer.length > 100 then 3
    else if answer.length > 50 then 2
    else if answer.length > 20 then 1
    else 0
  let score := base + (if hasPositiveIndicators answer then 1 else 0) -
    (if hasNegativeIndicators answer then 1 else 0)
  max 0 (min 5 score)

/-- `calculateDimensionScores`: every answered dimension except `context` is
scored, in insertion order. -/
def calculateDimensionScores (answers : Answers) : List (String × ℚ) :=
  (answers.filter (fun p => p.1 ≠ "context")).map (fun p => (p.1, scoreAnswer p.2))

/-- `evaluateReadinessLevel`: average the dimension scores and map through the
fixed cutoffs 1.5 / 2.5 / 3.5.  With no scored dimension the source divides
zero by zero, producing `NaN`, and every `<=` comparison on `NaN` is false, so
the result falls through to `Advanced`. -/
def evaluateReadinessLevel (answers : Answers) : String :=
  let dimensionScores := calculateDimensionScores answers
  if dimensionScores.length = 0 then "Advanced"
  else
    let averageScore : ℚ :=
      (dimensionScores.map (fun p => p.2)).sum / (dimensionScores.length : ℚ)
    if averageScore ≤ 3 / 2 then "Exploring"
    else if averageScore ≤ 5 / 2 then "Developing"
    else if averageScore ≤ 7 / 2 then "Established"
    else "Advanced"

/-- One `industryContexts` entry. -/
structure IndustryContext where
  industry : String
  opportunities : List String
  considerations : List String
deriving DecidableEq

/-- `determineIndustryContext`: keyword scan over the lowercased `context`
answer. -/
def determineIndustryContext (contextAnswer : JStr) : Option IndustryContext :=
  let answer := jsToLower contextAnswer
  let has := fun (w : String) => jsIncludes answer w.toList
  if has "health" || has "medical" || has "hospital" then
    some ⟨"healthcare",
      ["Patient outcome prediction", "Medical image analysis", "Treatment optimization"],
      ["HIPAA compliance", "Patient data privacy", "Medical device regulations"]⟩
  else if has "bank" || has "finance" || has "investment" then
    some ⟨"finance",
      ["Risk assessment", "Fraud detection", "Automated trading"],
      ["Regulatory compliance", "Algorithm transparency", "Real-time processing"]⟩
  else if has "retail" || has "shop" || has "store" then
    some ⟨"retail",
      ["Demand forecasting", "Personalized recommendations", "Inventory optimization"],
      ["Customer privacy", "Real-time analytics", "Multi-channel integration"]⟩
  else if has "manufact" || has "production" || has "factory" then
    some ⟨"manufacturing",
      ["Predictive maintenance", "Quality control", "Supply chain optimization"],
      ["IoT integration", "Legacy systems", "Safety regulations"]⟩
  else none

/-- `getDimensionRecommendations` (the `relevantContext` appendix is never
added, the preprocessed chunks being empty). -/
def getDimensionRecommendations (dimension : String) : List String :=
  if dimension = "data" then
    ["📊 Data Readiness:",
     "• Conduct a comprehensive data audit to identify and catalog available datasets",
     "• Implement data quality monitoring and improvement processes",
     "• Establish clear data governance policies and documentation standards"]
  else if dimension = "strategy" then
    ["🎯 Strategic Alignment:",
     "• Define clear business objectives that could benefit from AI implementation",
     "• Develop a phased AI adoption roadmap aligned with business goals",
     "• Identify quick wins for initial AI projects to demonstrate value"]
  else if dimension = "talent" then
    ["👥 Talent Development:",
     "• Assess current team skills and identify key capability gaps",
     "• Develop an AI training program for existing staff",
     "• Consider partnerships with AI experts or consultancies for initial projects"]
  else if dimension = "technical" then
    ["🔧 Technical Infrastructure:",
     "• Evaluate current infrastructure against AI workload requirements",
     "• Consider cloud-based AI platforms for initial projects",
     "• Develop a scalable technical architecture plan"]
  else if dimension = "governance" then
    ["🔒 Governance & Ethics:",
     "• Establish an AI ethics framework and governance structure",
     "• Implement processes for responsible AI development and deployment",
     "• Ensure compliance with relevant regulations and standards"]
  else []

/-- `generateBasicRecommendations`, the pure fallback used when the
completion call for recommendations fails. -/
def generateBasicRecommendations (answers : Answers)
    (dimensionScores : List (String × ℚ)) : JStr :=
  let industryContext :=
    match jsGet answers "context" with
    | some a => if a = [] then none else determineIndustryContext a
    | none => none
  let header : List String :=
    ["Based on our detailed assessment and analysis of your organization\x27s data, here are your personalized AI readiness insights and recommendations:",
     "\n🎯 Overall Assessment:"]
  let industryBlock : List String :=
    match industryContext with
    | some ic =>
      ("\nIn the " ++ ic.industry ++ " industry, we see particular opportunities in:") ::
        ic.opportunities.map (fun opp => "• " ++ opp) ++
        ["\nKey considerations for your industry:"] ++
        ic.considerations.map (fun con => "• " ++ con)
    | none => []
  let dimensionBlock : List String :=
    "\n💡 Dimension-Specific Recommendations:" ::
      (dimensionScores.filter (fun p => p.2 ≤ 3)).flatMap
        (fun p => getDimensionRecommendations p.1)
  let nextSteps : List String :=
    ["\n📈 Next Steps:",
     "1. Focus on addressing the recommendations in order of priority",
     "2. Start with a well-defined pilot project to demonstrate value",
     "3. Regularly reassess your AI readiness as you progress",
     "\nWould you like me to elaborate on any of these recommendations or discuss specific next steps for your organization?"]
  joinSep "\n".toList ((header ++ industryBlock ++ dimensionBlock ++ nextSteps).map String.toList)

/-- `generateRecommendations`: scores the answers, builds the prompt (which
looks up each dimension and can throw on an unknown key), then either returns
the trimmed completion text or falls back to `generateBasicRecommendations`
when the completion call fails. -/
def generateRecommendations (answers : Answers) (oracle : Except Unit JStr) :
    Except Unit JStr :=
  let dimensionScores := calculateDimensionScores answers
  match buildAnswersBlock answers with
  | .error e => .error e
  | .ok _ =>
    match (dimensionScores.mapM (fun p =>
        match dimLookup p.1 with
        | some d => Except.ok d.description
        | none => Except.error ()) : Except Unit (List String)) with
    | .error e => .error e
    | .ok _ =>
      match oracle with
      | .ok content => .ok (jsTrim content)
      | .error _ => .ok (generateBasicRecommendations answers dimensionScores)

/-- The `evaluationState` record of the service. -/
structure EvalState where
  inProgress : Bool
  currentTopicId : Option String
  answers : Answers
deriving DecidableEq

/-- The reset value of `evaluationState` (used on completion and on error). -/
def initialEvalState : EvalState := ⟨false, none, []⟩

/-- The value of `evaluationState` right after `toggleEvaluationMode(true)`. -/
def entryEvalState : EvalState := ⟨true, none, []⟩

/-- JavaScript truthiness of a `string | null` value: `null` and the empty
string `\x27\x27` are falsy (`if (!question)` / `if (!nextQuestion)` treat
both as "no question"); a non-empty string passes through. -/
def jsTruthyStr : Option JStr → Option JStr
  | none => none
  | some q => if q = [] then none else some q

/-- `handleEvaluationMode` from src/services/openai.ts.  `qOracle`/`rOracle`
are the external completion calls made by `generateNextQuestion` and
`generateRecommendations`.  Returns the reply (or the propagated error) plus
the new `evaluationState`.  Faithful details: the `if (!question)` /
`if (!nextQuestion)` tests are JavaScript falsiness checks — a `null` return
and a trimmed-empty completion text both count as "no question", throwing on
the initial turn and producing the terminal recommendations (with the reset
to Idle) on an in-progress turn — modelled by `jsTruthyStr`; and the
`EvalContext` returned by `generateNextQuestion` is discarded, because in
the source the `context.currentTopicId = nextDimension.id` assignment
mutates the per-turn temporary context object, never `this.evaluationState`,
so the service state keeps its old `currentTopicId`.  The catch block resets
the state to `initialEvalState` and re-raises. -/
def handleEvaluationModeBody (s : EvalState) (userInput : JStr)
    (qOracle rOracle : Except Unit JStr) : Except Unit (JStr × EvalState) :=
  if ¬ s.inProgress then
      match generateNextQuestion ⟨s.answers, s.currentTopicId⟩ qOracle with
      | .error e => .error e
      | .ok (question, _) =>
        match jsTruthyStr question with
        | none => .error ()
        | some q => .ok (q, { s with inProgress := true })
    else
      let answers1 :=
        match s.currentTopicId with
        | some tid => jsSet s.answers tid userInput
        | none => s.answers
      match generateNextQuestion ⟨answers1, s.currentTopicId⟩ qOracle with
      | .error e => .error e
      | .ok (nextQuestion, _) =>
        match jsTruthyStr nextQuestion with
        | none =>
          match generateRecommendations answers1 rOracle with
          | .error e => .error e
          | .ok recommendations => .ok (recommendations, initialEvalState)
        | some q => .ok (q, { s with answers := answers1 })

/-- The surrounding try/catch of `handleEvaluationMode`: on success the reply
and the updated state, on error the reset to `initialEvalState` plus the
re-raised error. -/
def handleEvaluationMode (s : EvalState) (userInput : JStr)
    (qOracle rOracle : Except Unit JStr) : Except Unit JStr × EvalState :=
  match handleEvaluationModeBody s userInput qOracle rOracle with
  | .ok (msg, s1) => (.ok msg, s1)
  | .error e => (.error e, initialEvalState)

/-- The `KnowledgeBase` record as the service reads it (`textContent` may be
absent; `isLoaded` is the upload flag). -/
structure KnowledgeBase where
  textContent : Option JStr
  isLoaded : Bool
deriving DecidableEq

/-- `this.knowledgeBase?.isLoaded` with optional chaining: an absent
knowledge base reads as not loaded. -/
def kbIsLoaded : Option KnowledgeBase → Bool
  | some kb => kb.isLoaded
  | none => false

/-- The pre-network phase of `getCompletion`: each constructor records which
way control leaves the guard sequence.  External calls (the retrieval query,
the embedding service and the chat completion) occur only after a `proceed`
outcome; an `earlyMessage` outcome returns the message with no call. -/
inductive CompletionOutcome
  | earlyMessage (msg : String)
  | proceedEvaluation
  | proceedNormal
deriving DecidableEq

/-- Message returned when no API key is configured. -/
def msgNoApiKey : String :=
  "Please set your OpenAI API key in the settings. Make sure to use a valid API key from your OpenAI account."

/-- Message returned when the knowledge base is not loaded. -/
def msgNoKnowledgeBase : String := "Please upload knowledge base files first."

/-- Message returned when the API key fails the format validation. -/
def msgBadKeyFormat : String :=
  "The API key format appears to be invalid. Please check your OpenAI API key in settings. It should start with \x27sk-\x27 and be at least 40 characters long."

/-- The guard sequence of `getCompletion` from src/services/openai.ts, in
source order: missing key, unloaded knowledge base, then key-format
validation; only then is evaluation or normal handling (with its external
calls) reached. -/
def getCompletionPre (apiKey : JStr) (knowledgeBase : Option KnowledgeBase)
    (isEvaluationMode : Bool) : CompletionOutcome :=
  if apiKey = [] then .earlyMessage msgNoApiKey
  else if ¬ kbIsLoaded knowledgeBase then
    .earlyMessage msgNoKnowledgeBase
  else if ¬ ("sk-".toList.isPrefixOf apiKey) ∨ apiKey.length < 40 then
    .earlyMessage msgBadKeyFormat
  else if isEvaluationMode then .proceedEvaluation
  else .proceedNormal

/-- `maxContextLength` of the service. -/
def maxContextLength : ℕ := 8000

/-- `truncateContext` from src/services/openai.ts. -/
def truncateContext (text : JStr) (maxLength : ℕ) : JStr :=
  if text.length ≤ maxLength then text
  else text.take maxLength ++ "...".toList

/-- One vector-store match as consumed by `getRelevantContext` (`score` and
`groupKey` may be absent in the source; the `|| 0` / `|| 'General Content'`
defaults are applied at the use sites). -/
structure QueryMatch where
  text : JStr
  score : ℚ
  groupKey : Option JStr
deriving DecidableEq

/-- `result.metadata?.groupKey || 'General Content'` (an absent or empty key
falls back to the default, `||` being a falsiness test). -/
def jsGroupKey (m : QueryMatch) : JStr :=
  match m.groupKey with
  | some g => if g = [] then "General Content".toList else g
  | none => "General Content".toList

/-- Stable insert for the descending-score sort
(`results.sort((a, b) => (b.score || 0) - (a.score || 0))`). -/
def insertByScore (x : QueryMatch) : List QueryMatch → List QueryMatch
  | [] => [x]
  | y :: ys => if x.score ≥ y.score then x :: y :: ys else y :: insertByScore x ys

/-- Stable descending-score sort of the matches. -/
def sortByScoreDesc : List QueryMatch → List QueryMatch
  | [] => []
  | x :: xs => insertByScore x (sortByScoreDesc xs)

/-- The `reduce` of `getRelevantContext` grouping match texts by group key in
first-appearance order (JavaScript object insertion order). -/
def pushGroup (acc : List (JStr × List JStr)) (key : JStr) (text : JStr) :
    List (JStr × List JStr) :=
  if acc.any (fun p => p.1 = key) then
    acc.map (fun p => if p.1 = key then (p.1, p.2 ++ [text]) else p)
  else acc ++ [(key, [text])]

/-- `getRelevantContext` from src/services/openai.ts.  The module/week hints
parsed from the query only shape the vector-store call, so the store reply is
taken as an input: `Except.ok` is the list of matches, `Except.error` a query
failure.  On success the matches are sorted, grouped, joined and truncated to
`maxContextLength` with a `'...'` marker; on failure the raw knowledge-base
text (or the empty string) is returned. -/
def getRelevantContext (queryResult : Except Unit (List QueryMatch))
    (knowledgeBase : Option KnowledgeBase) : JStr :=
  match queryResult with
  | .ok results =>
    let sorted := sortByScoreDesc results
    let grouped := sorted.foldl (fun acc r => pushGroup acc (jsGroupKey r) r.text) []
    let context := joinSep "\n\n===================\n\n".toList
      (grouped.map (fun p => p.1 ++ ":\n".toList ++ joinSep "\n\n".toList p.2))
    if context.length > maxContextLength then
      context.take maxContextLength ++ "...".toList
    else context
  | .error _ =>
    match knowledgeBase with
    | some kb => kb.textContent.getD []
    | none => []

/-- The mutable locals of the main batch loop of `processKnowledgeBase`. -/
structure IngestState where
  i : ℕ
  currentBatchSize : ℕ
  successfulUpserts : ℕ
  failedBatches : ℕ
  retryQueue : List JStr
deriving DecidableEq

/-- The initial loop state (`currentBatchSize = 1000`). -/
def initialIngestState : IngestState := ⟨0, 1000, 0, 0, []⟩

/-- One iteration of the main batch loop of `processKnowledgeBase`:
`outcome = true` when the embedding fan-out and the upsert of the batch
succeed.  On success the loop advances and resets the failure counter.  On
failure the batch joins the retry queue and either (after more than two
consecutive failures) the batch size is halved with floor 50 and `i` is kept
(`continue`: the same batch is retried), or the batch is skipped. -/
def ingestStep (chunks : List JStr) (outcome : Bool) (s : IngestState) : IngestState :=
  let batchEndIndex := min (s.i + s.currentBatchSize) chunks.length
  let batch := (chunks.drop s.i).take (batchEndIndex - s.i)
  if outcome then
    { s with i := batchEndIndex,
             successfulUpserts := s.successfulUpserts + batch.length,
             failedBatches := 0 }
  else
    let failedBatches := s.failedBatches + 1
    let retryQueue := s.retryQueue ++ batch
    if failedBatches > 2 then
      { s with failedBatches := failedBatches, retryQueue := retryQueue,
               currentBatchSize := max 50 (s.currentBatchSize / 2) }
    else
      { s with failedBatches := failedBatches, retryQueue := retryQueue,
               i := batchEndIndex }

/-- The main batch loop, run with explicit fuel so that (non-)termination is
expressible: `none` means the fuel ran out with the loop still going,
`some s` that the loop condition `i < chunks.length` became false. -/
def ingestMainLoop (chunks : List JStr) (outcomes : ℕ → Bool) :
    ℕ → ℕ → IngestState → Option IngestState
  | 0, _, s => if s.i < chunks.length then none else some s
  | fuel + 1, attempt, s =>
    if s.i < chunks.length then
      ingestMainLoop chunks outcomes fuel (attempt + 1)
        (ingestStep chunks (outcomes attempt) s)
    else some s

/-- The retry replay: fixed batch size 50, the index always advances, and a
failed retry batch is logged and swallowed.  Returns the final
`successfulUpserts`. -/
def retryReplay (outcomes : ℕ → Bool) : ℕ → List JStr → ℕ → ℕ
  | _, [], successCount => successCount
  | attempt, q :: qs, successCount =>
    let batch := (q :: qs).take 50
    retryReplay outcomes (attempt + 1) ((q :: qs).drop 50)
      (if outcomes attempt then successCount + batch.length else successCount)
termination_by _ q _ => q.length
decreasing_by
  simp only [List.drop_succ_cons]
  calc (qs.drop 49).length ≤ qs.length := by
        simp [List.length_drop]
    _ < (q :: qs).length := by simp

/-- `processKnowledgeBase` after chunk assembly: the main batch pass followed
by the retry replay, returning `(successCount, totalCount)`; `none` when the
main loop never exits. -/
def processKnowledgeBase (chunks : List JStr) (outcomes retryOutcomes : ℕ → Bool)
    (fuel : ℕ) : Option (ℕ × ℕ) :=
  match ingestMainLoop chunks outcomes fuel 0 initialIngestState with
  | none => none
  | some s =>
    some (retryReplay retryOutcomes 0 s.retryQueue s.successfulUpserts, chunks.length)

/-- C5: when the vector-store query raises, `getRelevantContext` does not
propagate the error but returns the raw knowledge-base text content, or the
empty string when no text content (or no knowledge base) is loaded. -/
theorem claim_C5_query_failure_fallback (e : Unit) (t : JStr) (loaded : Bool) :
    getRelevantContext (Except.error e) (some ⟨some t, loaded⟩) = t ∧
    getRelevantContext (Except.error e) (some ⟨none, loaded⟩) = [] ∧
    getRelevantContext (Except.error e) none = [] :=
  ⟨rfl, rfl, rfl⟩

/-- The final truncation step of `getRelevantContext` yields at most
`maxContextLength + 3` characters. -/
theorem lengthOfTruncateIf (ctx : JStr) :
    (if ctx.length > maxContextLength then
        ctx.take maxContextLength ++ "...".toList
      else ctx).length ≤ maxContextLength + 3 := by
  split
  · simp only [List.length_append, List.length_take]
    have h3 : ("...".toList).length = 3 := rfl
    omega
  · omega

/-- C3 is false as stated: a single 9000-character match makes the truncated
path return 8003 characters, which exceeds `maxContextLength = 8000` (the
`'...'` marker is appended after cutting at 8000). -/
theorem claim_C3_counterexample :
    maxContextLength <
      (getRelevantContext
        (Except.ok [⟨List.replicate 9000 'a', 0, none⟩]) none).length := by
  have hshape : getRelevantContext
        (Except.ok [⟨List.replicate 9000 'a', 0, none⟩]) none =
      (let context := "General Content".toList ++ ":\n".toList ++
        (List.replicate 9000 'a' ++ []) ++ []
       if context.length > maxContextLength then
        context.take maxContextLength ++ "...".toList
       else context) := rfl
  rw [hshape]
  have h1 : ("General Content".toList).length = 15 := rfl
  have h2 : ((":\n").toList).length = 2 := rfl
  have hlen : ("General Content".toList ++ ":\n".toList ++
      (List.replicate 9000 'a' ++ []) ++ []).length = 9017 := by
    simp only [List.append_nil, List.length_append, List.length_replicate, h1, h2]
  simp only [hlen]
  norm_num [maxContextLength, List.length_append, List.length_take, hlen]

/-- C3 (amended): on the query-success path the context returned by
`getRelevantContext` has length at most `maxContextLength + 3` (8000
characters plus the three-character truncation marker), and likewise
`truncateContext` returns at most `maxLength + 3` characters; the query-failure
fallback path returns the raw knowledge-base text, which is not bounded by
`maxContextLength`. -/
theorem claim_C3_bounded :
    (∀ (text : JStr) (maxLength : ℕ),
      (truncateContext text maxLength).length ≤ maxLength + 3) ∧
    (∀ (results : List QueryMatch) (knowledgeBase : Option KnowledgeBase),
      (getRelevantContext (Except.ok results) knowledgeBase).length ≤
        maxContextLength + 3) := by
  constructor
  · intro text maxLength
    unfold truncateContext
    split
    · omega
    · simp only [List.length_append, List.length_take]
      have h3 : ("...".toList).length = 3 := rfl
      omega
  · intro results knowledgeBase
    exact lengthOfTruncateIf _

/-- C7: with a missing credential, an unloaded knowledge base, a credential
not starting with `sk-`, or a credential shorter than 40 characters,
`getCompletion` stops in its guard sequence with one of the three descriptive
messages; the evaluation/normal handling (where every external completion,
embedding or vector-store call lives) is never reached. -/
theorem claim_C7_guards (apiKey : JStr) (knowledgeBase : Option KnowledgeBase)
    (isEvaluationMode : Bool)
    (h : apiKey = [] ∨ ¬ kbIsLoaded knowledgeBase ∨
      ¬ ("sk-".toList.isPrefixOf apiKey) ∨ apiKey.length < 40) :
    ∃ msg, getCompletionPre apiKey knowledgeBase isEvaluationMode =
        CompletionOutcome.earlyMessage msg ∧
      (msg = msgNoApiKey ∨ msg = msgNoKnowledgeBase ∨ msg = msgBadKeyFormat) := by
  unfold getCompletionPre
  by_cases h1 : apiKey = []
  · rw [if_pos h1]
    exact ⟨msgNoApiKey, rfl, Or.inl rfl⟩
  · rw [if_neg h1]
    by_cases h2 : kbIsLoaded knowledgeBase
    · rw [if_neg (by simpa using h2)]
      by_cases h3 : ¬ ("sk-".toList.isPrefixOf apiKey) ∨ apiKey.length < 40
      · rw [if_pos h3]
        exact ⟨msgBadKeyFormat, rfl, Or.inr (Or.inr rfl)⟩
      · exfalso
        rcases h with h | h | h | h
        · exact h1 h
        · exact h h2
        · exact h3 (Or.inl h)
        · exact h3 (Or.inr h)
    · rw [if_pos h2]
      exact ⟨msgNoKnowledgeBase, rfl, Or.inr (Or.inl rfl)⟩

/-- C7 witness: a loaded knowledge base but a key without the `sk-` prefix
stops at the key-format message. -/
theorem claim_C7_guards_witness :
    ∃ msg, getCompletionPre "bad-key".toList (some ⟨none, true⟩) false =
        CompletionOutcome.earlyMessage msg ∧
      (msg = msgNoApiKey ∨ msg = msgNoKnowledgeBase ∨ msg = msgBadKeyFormat) :=
  claim_C7_guards "bad-key".toList (some ⟨none, true⟩) false (by decide)

/-- C6: whenever an evaluation-mode turn ends in an error, the catch block of
`handleEvaluationMode` has reset the evaluation state to its initial value
(not in progress, no current topic, empty answers) and re-raised the error. -/
theorem claim_C6_error_resets (s : EvalState) (userInput : JStr)
    (qOracle rOracle : Except Unit JStr) (e : Unit)
    (h : (handleEvaluationMode s userInput qOracle rOracle).1 = Except.error e) :
    (handleEvaluationMode s userInput qOracle rOracle).2 = initialEvalState := by
  unfold handleEvaluationMode at h ⊢
  cases hb : handleEvaluationModeBody s userInput qOracle rOracle with
  | ok p =>
    obtain ⟨msg, s1⟩ := p
    rw [hb] at h
    simp at h
  | error e2 => rfl

/-- Seven answers covering every dimension (used to reach the throwing branch
of the idle-state turn). -/
def allAnsweredSeven : Answers :=
  [("context", "a".toList), ("data", "a".toList), ("strategy", "a".toList),
   ("talent", "a".toList), ("technical", "a".toList),
   ("governance", "a".toList), ("experience", "a".toList)]

/-- C6 witness: a turn taken while not in progress with all dimensions already
answered makes `generateNextQuestion` return no question, so the initial
branch throws; the state ends up reset. -/
theorem claim_C6_error_resets_witness :
    (handleEvaluationMode ⟨false, none, allAnsweredSeven⟩ "x".toList
      (Except.ok "Q".toList) (Except.ok "R".toList)).2 = initialEvalState :=
  claim_C6_error_resets _ _ _ _ () rfl

/-- C1 fails on the code (code bug): starting from the entry state of
evaluation mode, as long as the completion service keeps returning question
text that is non-empty after trimming (so the JavaScript falsiness checks do
not fire), the service state is unchanged by every turn — the answer is
never recorded because `evaluationState.currentTopicId` is never assigned
(the `context.currentTopicId = nextDimension.id` assignment in
`generateNextQuestion` mutates the discarded per-turn context object) — and
every turn returns the next question (the trimmed completion text), so the
recommendations message is never produced and the state never returns to
Idle. -/
theorem claim_C1_interview_never_completes (inputs : List JStr) (qText rText : JStr)
    (hq : jsTrim qText ≠ []) :
    inputs.foldl
        (fun st inp =>
          (handleEvaluationMode st inp (Except.ok qText) (Except.ok rText)).2)
        entryEvalState = entryEvalState ∧
    ∀ input,
      (handleEvaluationMode entryEvalState input
        (Except.ok qText) (Except.ok rText)).1 = Except.ok (jsTrim qText) := by
  have htruthy : jsTruthyStr (some (jsTrim qText)) = some (jsTrim qText) := by
    simp [jsTruthyStr, hq]
  have hstep : ∀ inp : JStr,
      handleEvaluationMode entryEvalState inp (Except.ok qText) (Except.ok rText) =
        (Except.ok (jsTrim qText), entryEvalState) := by
    intro inp
    have hbody : handleEvaluationModeBody entryEvalState inp
        (Except.ok qText) (Except.ok rText) = .ok (jsTrim qText, entryEvalState) := by
      have h1 : handleEvaluationModeBody entryEvalState inp
          (Except.ok qText) (Except.ok rText) =
          (match jsTruthyStr (some (jsTrim qText)) with
           | none =>
             match generateRecommendations [] (Except.ok rText) with
             | .error e => .error e
             | .ok recommendations => .ok (recommendations, initialEvalState)
           | some q => .ok (q, entryEvalState)) := rfl
      rw [h1, htruthy]
    unfold handleEvaluationMode
    rw [hbody]
  constructor
  · induction inputs with
    | nil => rfl
    | cons i is ih => simp only [List.foldl_cons, hstep]; exact ih
  · intro input
    rw [hstep]

/-- C1 witness: two turns with the completion text `"Q"` (non-empty after
trimming) leave the entry state untouched and each return the question. -/
theorem claim_C1_interview_never_completes_witness :
    jsTrim "Q".toList ≠ [] ∧
    (([("a".toList : JStr), "b".toList]).foldl
        (fun st inp =>
          (handleEvaluationMode st inp
            (Except.ok "Q".toList) (Except.ok "R".toList)).2)
        entryEvalState = entryEvalState ∧
    ∀ input,
      (handleEvaluationMode entryEvalState input
        (Except.ok "Q".toList) (Except.ok "R".toList)).1 =
          Except.ok (jsTrim "Q".toList)) :=
  ⟨by decide,
    claim_C1_interview_never_completes ["a".toList, "b".toList]
      "Q".toList "R".toList (by decide)⟩

/-- Once a third consecutive failure has been recorded while chunks remain,
an always-failing provider keeps the main batch loop on the same batch
forever: the loop never exits, whatever the fuel. -/
theorem ingestStuck (chunks : List JStr) (outcomes : ℕ → Bool)
    (hout : ∀ n, outcomes n = false) :
    ∀ (fuel attempt : ℕ) (s : IngestState),
      s.i < chunks.length → 2 ≤ s.failedBatches →
      ingestMainLoop chunks outcomes fuel attempt s = none := by
  intro fuel
  induction fuel with
  | zero =>
    intro attempt s hi _
    simp [ingestMainLoop, hi]
  | succ f ih =>
    intro attempt s hi hfb
    have hgt : s.failedBatches + 1 > 2 := by omega
    have hstep_i : (ingestStep chunks (outcomes attempt) s).i = s.i := by
      rw [hout attempt]
      simp [ingestStep, hgt]
    have hstep_fb : 2 ≤ (ingestStep chunks (outcomes attempt) s).failedBatches := by
      rw [hout attempt]
      simp [ingestStep, hgt]
      omega
    simp only [ingestMainLoop, if_pos hi]
    exact ih (attempt + 1) _ (hstep_i ▸ hi) hstep_fb

/-- C2 fails on the code (code bug): with 2001 chunks and an always-failing
embedding/upsert provider, the first two batch failures are skipped, the
third failure puts the loop into retry-same-batch mode, and from then on the
batch size halves down to its floor of 50 while `i` never advances again —
`processKnowledgeBase` never terminates, whatever fuel it is given, so the
retry replay and the final success report are never reached. -/
theorem claim_C2_nonterminating (fuel : ℕ) (retryOutcomes : ℕ → Bool) :
    processKnowledgeBase (List.replicate 2001 "x".toList) (fun _ => false)
      retryOutcomes fuel = none := by
  have main : ∀ (L : List JStr), L.length = 2001 → ∀ f,
      ingestMainLoop L (fun _ => false) f 0 initialIngestState = none := by
    intro L hlen f
    have h1i : (ingestStep L false initialIngestState).i = 1000 := by
      simp [ingestStep, initialIngestState, hlen]
    have h1bs : (ingestStep L false initialIngestState).currentBatchSize = 1000 := by
      simp [ingestStep, initialIngestState]
    have h1fb : (ingestStep L false initialIngestState).failedBatches = 1 := by
      simp [ingestStep, initialIngestState]
    have h2i : (ingestStep L false (ingestStep L false initialIngestState)).i = 2000 := by
      generalize ingestStep L false initialIngestState = s1 at h1i h1bs h1fb
      simp [ingestStep, h1i, h1bs, h1fb, hlen]
    have h2fb : (ingestStep L false
        (ingestStep L false initialIngestState)).failedBatches = 2 := by
      generalize ingestStep L false initialIngestState = s1 at h1i h1bs h1fb
      simp [ingestStep, h1fb]
    match f with
    | 0 =>
      simp [ingestMainLoop, initialIngestState, hlen]
    | 1 =>
      simp only [ingestMainLoop]
      rw [if_pos (show initialIngestState.i < L.length by
        simp [initialIngestState, hlen])]
      rw [if_pos (show (ingestStep L false initialIngestState).i < L.length by
        rw [h1i, hlen]; omega)]
    | (f + 2) =>
      simp only [ingestMainLoop]
      rw [if_pos (show initialIngestState.i < L.length by
        simp [initialIngestState, hlen])]
      rw [if_pos (show (ingestStep L false initialIngestState).i < L.length by
        rw [h1i, hlen]; omega)]
      exact ingestStuck _ _ (fun _ => rfl) f 2 _ (by rw [h2i, hlen]; omega)
        (by rw [h2fb])
  unfold processKnowledgeBase
  rw [main _ (by rw [List.length_replicate]) fuel]

/-- A 30-character answer containing the positive cues "yes", "have" and
"implemented" and no negative cue. -/
def posAnswer30 : JStr := "yes we have implemented it all".toList

/-- The six scored dimensions (`context` is skipped by the scoring), each
given `posAnswer30`. -/
def claim9Answers : Answers :=
  [("data", posAnswer30), ("strategy", posAnswer30), ("talent", posAnswer30),
   ("technical", posAnswer30), ("governance", posAnswer30),
   ("experience", posAnswer30)]

/-- C9 is false as stated: the six scored dimensions answered with a
30-character positive-cue answer each score `1 (length > 20) + 1 (positive
cue) = 2`, the average is `2`, and `2 ≤ 2.5` maps to `Developing` — which is
neither of the two highest readiness levels.  (The "never the lowest" half
does hold: the result is not `Exploring`.) -/
theorem claim_C9_counterexample :
    posAnswer30.length = 30 ∧
    hasPositiveIndicators posAnswer30 = true ∧
    hasNegativeIndicators posAnswer30 = false ∧
    evaluateReadinessLevel claim9Answers = "Developing" ∧
    "Developing" ≠ "Established" ∧ "Developing" ≠ "Advanced" := by
  have hscore : scoreAnswer posAnswer30 = 2 := by
    simp only [scoreAnswer]
    rw [show posAnswer30.length = 30 from rfl]
    rw [show hasPositiveIndicators posAnswer30 = true from rfl]
    rw [show hasNegativeIndicators posAnswer30 = false from rfl]
    norm_num
  have hsc : calculateDimensionScores claim9Answers =
      [("data", scoreAnswer posAnswer30), ("strategy", scoreAnswer posAnswer30),
       ("talent", scoreAnswer posAnswer30), ("technical", scoreAnswer posAnswer30),
       ("governance", scoreAnswer posAnswer30),
       ("experience", scoreAnswer posAnswer30)] := rfl
  have hlevel : evaluateReadinessLevel claim9Answers = "Developing" := by
    simp only [evaluateReadinessLevel, hsc, hscore, List.map_cons, List.map_nil,
      List.sum_cons, List.sum_nil, List.length_cons, List.length_nil]
    norm_num
  exact ⟨rfl, rfl, rfl, hlevel, by decide, by decide⟩

/-- A 30-character answer with a positive cue and no negative cue scores
`1 + 1 = 2` (no context-alignment boost: the preprocessed chunks are empty). -/
theorem scoreAnswer_of_thirty (a : JStr) (hlen : a.length = 30)
    (hpos : hasPositiveIndicators a = true)
    (hneg : hasNegativeIndicators a = false) : scoreAnswer a = 2 := by
  simp only [scoreAnswer, hlen, hpos, hneg]
  norm_num

/-- C9 (amended): six 30-character answers with positive cues and no negative
cues over the six scored dimensions (importances `[3,3,2,2,2,1]`) each score
2, the average is 2, and the session maps to `Developing` — a level of the
fixed four-level set that is strictly above the lowest (`Exploring`) but not
one of the two highest. -/
theorem claim_C9_amended (a1 a2 a3 a4 a5 a6 : JStr)
    (h1 : a1.length = 30 ∧ hasPositiveIndicators a1 = true ∧
      hasNegativeIndicators a1 = false)
    (h2 : a2.length = 30 ∧ hasPositiveIndicators a2 = true ∧
      hasNegativeIndicators a2 = false)
    (h3 : a3.length = 30 ∧ hasPositiveIndicators a3 = true ∧
      hasNegativeIndicators a3 = false)
    (h4 : a4.length = 30 ∧ hasPositiveIndicators a4 = true ∧
      hasNegativeIndicators a4 = false)
    (h5 : a5.length = 30 ∧ hasPositiveIndicators a5 = true ∧
      hasNegativeIndicators a5 = false)
    (h6 : a6.length = 30 ∧ hasPositiveIndicators a6 = true ∧
      hasNegativeIndicators a6 = false) :
    evaluateReadinessLevel
      [("data", a1), ("strategy", a2), ("talent", a3), ("technical", a4),
       ("governance", a5), ("experience", a6)] = "Developing" ∧
    "Developing" ∈ readinessLevels ∧ "Developing" ≠ "Exploring" := by
  obtain ⟨l1, p1, n1⟩ := h1
  obtain ⟨l2, p2, n2⟩ := h2
  obtain ⟨l3, p3, n3⟩ := h3
  obtain ⟨l4, p4, n4⟩ := h4
  obtain ⟨l5, p5, n5⟩ := h5
  obtain ⟨l6, p6, n6⟩ := h6
  have hsc : calculateDimensionScores
      [("data", a1), ("strategy", a2), ("talent", a3), ("technical", a4),
       ("governance", a5), ("experience", a6)] =
      [("data", scoreAnswer a1), ("strategy", scoreAnswer a2),
       ("talent", scoreAnswer a3), ("technical", scoreAnswer a4),
       ("governance", scoreAnswer a5), ("experience", scoreAnswer a6)] := rfl
  refine ⟨?_, by decide, by decide⟩
  simp only [evaluateReadinessLevel, hsc,
    scoreAnswer_of_thirty a1 l1 p1 n1, scoreAnswer_of_thirty a2 l2 p2 n2,
    scoreAnswer_of_thirty a3 l3 p3 n3, scoreAnswer_of_thirty a4 l4 p4 n4,
    scoreAnswer_of_thirty a5 l5 p5 n5, scoreAnswer_of_thirty a6 l6 p6 n6,
    List.map_cons, List.map_nil, List.sum_cons, List.sum_nil,
    List.length_cons, List.length_nil]
  norm_num

/-- C9 (amended) witness at the concrete 30-character positive answer. -/
theorem claim_C9_amended_witness :
    (posAnswer30.length = 30 ∧ hasPositiveIndicators posAnswer30 = true ∧
      hasNegativeIndicators posAnswer30 = false) ∧
    (evaluateReadinessLevel
      [("data", posAnswer30), ("strategy", posAnswer30), ("talent", posAnswer30),
       ("technical", posAnswer30), ("governance", posAnswer30),
       ("experience", posAnswer30)] = "Developing" ∧
    "Developing" ∈ readinessLevels ∧ "Developing" ≠ "Exploring") :=
  ⟨⟨rfl, rfl, rfl⟩,
    claim_C9_amended posAnswer30 posAnswer30 posAnswer30 posAnswer30 posAnswer30
      posAnswer30 ⟨rfl, rfl, rfl⟩ ⟨rfl, rfl, rfl⟩ ⟨rfl, rfl, rfl⟩
      ⟨rfl, rfl, rfl⟩ ⟨rfl, rfl, rfl⟩ ⟨rfl, rfl, rfl⟩⟩

/-- Cauchy–Schwarz for the embedded dot product: on unit vectors of equal
length the dot product is at most 1. -/
theorem dotProduct_le_one (v w : List ℝ) (hl : w.length = v.length)
    (hv : sumSq v = 1) (hw : sumSq w = 1) : dotProduct v w ≤ 1 := by
  have hcs := Finset.sum_mul_sq_le_sq_mul_sq (Finset.range v.length)
    (fun i => v.getD i 0) (fun i => w.getD i 0)
  have hv' : (∑ i ∈ Finset.range v.length, (v.getD i 0) ^ 2) = 1 := by
    simpa [sumSq, dotProduct, pow_two] using hv
  have hw' : (∑ i ∈ Finset.range v.length, (w.getD i 0) ^ 2) = 1 := by
    have hww : sumSq w = ∑ i ∈ Finset.range v.length, w.getD i 0 * w.getD i 0 := by
      rw [sumSq, dotProduct, hl]
    rw [hww] at hw
    simpa [pow_two] using hw
  rw [hv', hw'] at hcs
  have h1 : (dotProduct v w) ^ 2 ≤ 1 := by
    simpa [dotProduct] using hcs
  exact (abs_le.mp ((sq_le_one_iff_abs_le_one _).mp h1)).2

/-- C8: on L2-normalized vectors of equal length, `calculateSimilarity`
(the dot product) is reflexive-maximal — the similarity of `v` with itself is
1, the maximum attainable against any unit vector — and it coincides with
cosine similarity, hence is order-preserving with respect to it. -/
theorem claim_C8_similarity (v w₁ w₂ : List ℝ)
    (hl1 : w₁.length = v.length) (hl2 : w₂.length = v.length)
    (hv : sumSq v = 1) (hw1 : sumSq w₁ = 1) (hw2 : sumSq w₂ = 1) :
    calculateSimilarity v v = some (dotProduct v v) ∧
    dotProduct v v = 1 ∧
    calculateSimilarity v w₁ = some (dotProduct v w₁) ∧
    dotProduct v w₁ ≤ dotProduct v v ∧
    cosineSimilarity v w₁ = dotProduct v w₁ ∧
    (cosineSimilarity v w₁ ≤ cosineSimilarity v w₂ ↔
      dotProduct v w₁ ≤ dotProduct v w₂) := by
  have hvv : dotProduct v v = 1 := hv
  have hcos1 : cosineSimilarity v w₁ = dotProduct v w₁ := by
    rw [cosineSimilarity, hv, hw1, Real.sqrt_one, mul_one, div_one]
  have hcos2 : cosineSimilarity v w₂ = dotProduct v w₂ := by
    rw [cosineSimilarity, hv, hw2, Real.sqrt_one, mul_one, div_one]
  refine ⟨by simp [calculateSimilarity], hvv, by simp [calculateSimilarity, hl1], ?_, hcos1, ?_⟩
  · rw [hvv]
    exact dotProduct_le_one v w₁ hl1 hv hw1
  · rw [hcos1, hcos2]

/-- C8 witness at the unit vectors `[1,0]`, `[0,1]`, `[1,0]`. -/
theorem claim_C8_similarity_witness :
    (sumSq [(1 : ℝ), 0] = 1 ∧ sumSq [(0 : ℝ), 1] = 1) ∧
    (calculateSimilarity [(1 : ℝ), 0] [(1 : ℝ), 0] =
        some (dotProduct [(1 : ℝ), 0] [(1 : ℝ), 0]) ∧
      dotProduct [(1 : ℝ), 0] [(1 : ℝ), 0] = 1 ∧
      calculateSimilarity [(1 : ℝ), 0] [(0 : ℝ), 1] =
        some (dotProduct [(1 : ℝ), 0] [(0 : ℝ), 1]) ∧
      dotProduct [(1 : ℝ), 0] [(0 : ℝ), 1] ≤ dotProduct [(1 : ℝ), 0] [(1 : ℝ), 0] ∧
      cosineSimilarity [(1 : ℝ), 0] [(0 : ℝ), 1] = dotProduct [(1 : ℝ), 0] [(0 : ℝ), 1] ∧
      (cosineSimilarity [(1 : ℝ), 0] [(0 : ℝ), 1] ≤
          cosineSimilarity [(1 : ℝ), 0] [(1 : ℝ), 0] ↔
        dotProduct [(1 : ℝ), 0] [(0 : ℝ), 1] ≤ dotProduct [(1 : ℝ), 0] [(1 : ℝ), 0])) :=
  ⟨⟨by simp [sumSq, dotProduct, Finset.sum_range_succ],
    by simp [sumSq, dotProduct, Finset.sum_range_succ]⟩,
    claim_C8_similarity [(1 : ℝ), 0] [(0 : ℝ), 1] [(1 : ℝ), 0] rfl rfl
      (by simp [sumSq, dotProduct, Finset.sum_range_succ])
      (by simp [sumSq, dotProduct, Finset.sum_range_succ])
      (by simp [sumSq, dotProduct, Finset.sum_range_succ])⟩

/-- The square-sum fold is the sum of the squared entries. -/
theorem sumSqFold_eq (v : List ℝ) : sumSqFold v = (v.map (fun x => x * x)).sum := by
  have aux : ∀ (l : List ℝ) (a : ℝ),
      l.foldl (fun s x => s + x * x) a = a + (l.map (fun x => x * x)).sum := by
    intro l
    induction l with
    | nil => intro a; simp
    | cons x xs ih => intro a; simp [ih, add_assoc]
  simpa [sumSqFold] using aux v 0

/-- Summing a list divided termwise. -/
theorem list_sum_div (l : List ℝ) (c : ℝ) :
    (l.map (fun x => x / c)).sum = l.sum / c := by
  induction l with
  | nil => simp
  | cons x xs ih => simp [ih, add_div]

/-- The word-count fold of `createSimpleEmbedding` preserves the vector
length. -/
theorem bumpFold_length (words : List JStr) (v : List ℝ) :
    (words.foldl (fun v w => bumpAt v (simpleHash w % 100)) v).length = v.length := by
  induction words generalizing v with
  | nil => simp
  | cons w ws ih =>
    simp only [List.foldl_cons]
    rw [ih]
    simp [bumpAt]

/-- The word-count fold keeps every entry nonnegative. -/
theorem bumpFold_nonneg (words : List JStr) (v : List ℝ)
    (hv : ∀ x ∈ v, 0 ≤ x) :
    ∀ x ∈ words.foldl (fun v w => bumpAt v (simpleHash w % 100)) v, 0 ≤ x := by
  induction words generalizing v with
  | nil => simpa using hv
  | cons w ws ih =>
    intro x hx
    refine ih (bumpAt v (simpleHash w % 100)) ?_ x hx
    intro y hy
    rcases List.mem_or_eq_of_mem_set hy with hmem | rfl
    · exact hv y hmem
    · have hd : 0 ≤ v.getD (simpleHash w % 100) 0 := by
        by_cases hlt : simpleHash w % 100 < v.length
        · rw [List.getD_eq_getElem v 0 hlt]
          exact hv _ (List.getElem_mem hlt)
        · rw [List.getD_eq_default v 0 (le_of_not_lt hlt)]
      linarith

/-- Each processed word adds exactly one to the total count (the hash index
is always below the fixed length 100). -/
theorem bumpFold_sum (words : List JStr) (v : List ℝ) (hlen : v.length = 100) :
    (words.foldl (fun v w => bumpAt v (simpleHash w % 100)) v).sum =
      v.sum + words.length := by
  induction words generalizing v with
  | nil => simp
  | cons w ws ih =>
    have hi : simpleHash w % 100 < v.length := by
      rw [hlen]; exact Nat.mod_lt _ (by norm_num)
    have hlen2 : (bumpAt v (simpleHash w % 100)).length = 100 := by
      simp [bumpAt, hlen]
    have hsum : (bumpAt v (simpleHash w % 100)).sum = v.sum + 1 := by
      rw [bumpAt, List.sum_set']
      rw [dif_pos hi, List.getD_eq_getElem v 0 hi]
      ring
    simp only [List.foldl_cons]
    rw [ih _ hlen2, hsum, List.length_cons]
    push_cast
    ring

/-- A nonnegative vector with a positive entry has positive square sum. -/
theorem sumSqFold_pos (v : List ℝ) (hnn : ∀ x ∈ v, 0 ≤ x)
    (hx : ∃ x ∈ v, 0 < x) : 0 < sumSqFold v := by
  obtain ⟨x, hxv, hxpos⟩ := hx
  rw [sumSqFold_eq]
  have hmem : x * x ∈ v.map (fun y => y * y) := List.mem_map_of_mem _ hxv
  have hle : x * x ≤ (v.map (fun y => y * y)).sum := by
    refine List.single_le_sum ?_ _ hmem
    intro y hy
    obtain ⟨z, _, rfl⟩ := List.mem_map.mp hy
    exact mul_self_nonneg z
  nlinarith

/-- Termwise division scales the square sum by the squared divisor. -/
theorem sumSqFold_map_div (v : List ℝ) (m : ℝ) :
    sumSqFold (v.map (fun x => x / m)) = sumSqFold v / (m * m) := by
  rw [sumSqFold_eq, sumSqFold_eq, List.map_map]
  have h1 : ((fun x => x * x) ∘ fun x => x / m) =
      (fun y => y / (m * m)) ∘ (fun x => x * x) := by
    funext x
    simp [Function.comp, div_mul_div_comm]
  rw [h1, ← List.map_map, list_sum_div]

/-- The words list of `createSimpleEmbedding` is never empty (JavaScript
`split` always returns at least one piece). -/
theorem splitWsGo_ne_nil (s : JStr) : ∀ st, splitWsGo s st ≠ [] := by
  induction s with
  | nil => intro st; cases st <;> simp [splitWsGo]
  | cons c rest ih =>
    intro st
    cases st with
    | none =>
      by_cases hc : isWs c <;> simp [splitWsGo, hc, ih]
    | some acc =>
      by_cases hc : isWs c <;> simp [splitWsGo, hc, ih]

/-- `createSimpleEmbedding` always returns exactly 100 entries. -/
theorem createSimpleEmbedding_length (text : JStr) :
    (createSimpleEmbedding text).length = 100 := by
  by_cases ht : text = []
  · simp [createSimpleEmbedding, ht]
  · simp only [createSimpleEmbedding, if_neg ht]
    split
    · rw [bumpFold_length]
      simp
    · rw [List.length_map, bumpFold_length]
      simp

/-- The L2 norm of `createSimpleEmbedding` is 0 for the empty input and 1
otherwise. -/
theorem createSimpleEmbedding_norm (text : JStr) :
    l2norm (createSimpleEmbedding text) = 0 ∨
      l2norm (createSimpleEmbedding text) = 1 := by
  by_cases ht : text = []
  · left
    simp [createSimpleEmbedding, ht, l2norm, sumSqFold_eq, List.map_replicate]
  · right
    simp only [createSimpleEmbedding, if_neg ht]
    set words := splitWs (jsToLower text) with hw
    set counts := words.foldl (fun v w => bumpAt v (simpleHash w % 100))
      (List.replicate 100 (0 : ℝ)) with hc
    have hlen : counts.length = 100 := by
      rw [hc, bumpFold_length]; simp
    have hnn : ∀ x ∈ counts, 0 ≤ x := by
      rw [hc]
      refine bumpFold_nonneg _ _ ?_
      intro x hx
      rw [List.eq_of_mem_replicate hx]
    have hsum : counts.sum = (words.length : ℝ) := by
      rw [hc, bumpFold_sum _ _ (by simp)]
      simp
    have hwne : words ≠ [] := splitWsGo_ne_nil _ _
    have hpos : (0 : ℝ) < counts.sum := by
      rw [hsum]
      exact_mod_cast List.length_pos.mpr hwne
    have hex : ∃ x ∈ counts, 0 < x := by
      by_contra hno
      push_neg at hno
      have hz : ∀ x ∈ counts, x = 0 :=
        fun x hx => le_antisymm (hno x hx) (hnn x hx)
      have : counts.sum = 0 := List.sum_eq_zero hz
      linarith
    have hS : 0 < sumSqFold counts := sumSqFold_pos counts hnn hex
    have hm : ¬ l2norm counts = 0 := by
      rw [l2norm]
      exact ne_of_gt (Real.sqrt_pos.mpr hS)
    rw [if_neg hm, l2norm, sumSqFold_map_div]
    have hmm : l2norm counts * l2norm counts = sumSqFold counts := by
      rw [l2norm]
      exact Real.mul_self_sqrt hS.le
    rw [hmm, div_self (ne_of_gt hS), Real.sqrt_one]

/-- C10: every output of `createSimpleEmbedding` has exactly 100 entries and
L2 norm 0 (empty input) or 1; consequently `calculateSimilarity` on two such
outputs never takes the dimension-mismatch error path. -/
theorem claim_C10_embedding (text : JStr) :
    (createSimpleEmbedding text).length = 100 ∧
    (l2norm (createSimpleEmbedding text) = 0 ∨
      l2norm (createSimpleEmbedding text) = 1) ∧
    ∀ other : JStr,
      (calculateSimilarity (createSimpleEmbedding text)
        (createSimpleEmbedding other)).isSome = true := by
  refine ⟨createSimpleEmbedding_length text, createSimpleEmbedding_norm text, ?_⟩
  intro other
  simp [calculateSimilarity, createSimpleEmbedding_length]

/-- C4 is false as stated: (1) the empty input is returned as a singleton
empty chunk; (2) the two spaces of `"a.  b"` collapse to one inside the
single chunk, so no join-whitespace stripping can reproduce the input; (3) a
pending short sentence is flushed after the word-loop output of a later long
sentence, so the chunks are not even in input order. -/
theorem claim_C4_counterexample :
    chunkText [] 1 = [[]] ∧
    chunkText "a.  b".toList 3 = ["a. b".toList] ∧
    chunkText "ab cd. efg hij klm nop".toList 10 =
      ["efg hij".toList, "klm nop".toList, "ab cd.".toList] := by
  refine ⟨by decide, by decide, by decide⟩

/-- Dropping leading whitespace does not change the non-whitespace content. -/
theorem filter_dropWhile_isWs (s : JStr) :
    (s.dropWhile isWs).filter (fun c => !isWs c) = s.filter (fun c => !isWs c) := by
  induction s with
  | nil => rfl
  | cons c rest ih =>
    by_cases hc : isWs c
    · simp [List.dropWhile_cons, hc, ih]
    · simp [List.dropWhile_cons, hc]

/-- `trim` does not change the non-whitespace content. -/
theorem jsTrim_filter (s : JStr) :
    (jsTrim s).filter (fun c => !isWs c) = s.filter (fun c => !isWs c) := by
  rw [jsTrim, List.filter_reverse, filter_dropWhile_isWs, List.filter_reverse,
    filter_dropWhile_isWs, List.reverse_reverse]

/-- A string containing a non-whitespace character trims to a non-empty
string. -/
theorem jsTrim_ne_nil (s : JStr) (h : ∃ c ∈ s, isWs c = false) :
    jsTrim s ≠ [] := by
  obtain ⟨c, hcs, hc⟩ := h
  intro hnil
  have h1 : (jsTrim s).filter (fun c => !isWs c) = [] := by rw [hnil]; rfl
  rw [jsTrim_filter] at h1
  have : c ∈ s.filter (fun c => !isWs c) :=
    List.mem_filter.mpr ⟨hcs, by simp [hc]⟩
  rw [h1] at this
  exact absurd this (List.not_mem_nil c)

/-- The concatenation of the `split(/\s+/)` pieces is the input minus its
whitespace. -/
theorem splitWsGo_flatten (s : JStr) :
    (∀ acc, (splitWsGo s (some acc)).flatten =
      acc.reverse ++ s.filter (fun c => !isWs c)) ∧
    (splitWsGo s none).flatten = s.filter (fun c => !isWs c) := by
  induction s with
  | nil => exact ⟨fun acc => by simp [splitWsGo], by simp [splitWsGo]⟩
  | cons c rest ih =>
    constructor
    · intro acc
      by_cases hc : isWs c
      · simp [splitWsGo, hc, ih.2]
      · rw [splitWsGo]
        simp only [hc, if_false, Bool.false_eq_true]
        rw [ih.1 (c :: acc)]
        simp [hc]
    · by_cases hc : isWs c
      · simp [splitWsGo, hc, ih.2]
      · rw [splitWsGo]
        simp only [hc, if_false, Bool.false_eq_true]
        rw [ih.1 [c]]
        simp [hc]

/-- The concatenated `splitWs` pieces are the input minus its whitespace. -/
theorem splitWs_flatten (s : JStr) :
    (splitWs s).flatten = s.filter (fun c => !isWs c) := by
  rw [splitWs, (splitWsGo_flatten s).1]
  rfl

/-- Every `splitWs` piece is whitespace-free. -/
theorem splitWs_pieces_nonws (s : JStr) :
    ∀ p ∈ splitWs s, ∀ c ∈ p, isWs c = false := by
  have main : ∀ (s : JStr),
      (∀ acc, (∀ c ∈ acc, isWs c = false) →
        ∀ p ∈ splitWsGo s (some acc), ∀ c ∈ p, isWs c = false) ∧
      (∀ p ∈ splitWsGo s none, ∀ c ∈ p, isWs c = false) := by
    intro s
    induction s with
    | nil =>
      constructor
      · intro acc hacc p hp
        simp [splitWsGo] at hp
        subst hp
        intro c hc
        exact hacc c (List.mem_reverse.mp hc)
      · intro p hp
        simp [splitWsGo] at hp
        subst hp
        intro c hc
        exact absurd hc (List.not_mem_nil c)
    | cons c rest ih =>
      constructor
      · intro acc hacc p hp
        by_cases hc : isWs c
        · rw [splitWsGo] at hp
          simp only [hc, if_true] at hp
          rcases List.mem_cons.mp hp with rfl | hp
          · intro d hd
            exact hacc d (List.mem_reverse.mp hd)
          · exact ih.2 p hp
        · rw [splitWsGo] at hp
          simp only [hc, if_false, Bool.false_eq_true] at hp
          refine ih.1 (c :: acc) ?_ p hp
          intro d hd
          rcases List.mem_cons.mp hd with rfl | hd
          · simpa using hc
          · exact hacc d hd
      · intro p hp
        by_cases hc : isWs c
        · rw [splitWsGo] at hp
          simp only [hc, if_true] at hp
          exact ih.2 p hp
        · rw [splitWsGo] at hp
          simp only [hc, if_false, Bool.false_eq_true] at hp
          refine ih.1 [c] ?_ p hp
          intro d hd
          rcases List.mem_cons.mp hd with rfl | hd
          · simpa using hc
          · exact absurd hd (List.not_mem_nil d)
  intro p hp
  refine (main s).1 [] ?_ p hp
  intro d hd
  exact absurd hd (List.not_mem_nil d)

/-- On an all-whitespace string every `splitWs` piece is empty. -/
theorem splitWs_allws (s : JStr) (h : ∀ c ∈ s, isWs c = true) :
    ∀ p ∈ splitWs s, p = [] := by
  apply List.flatten_eq_nil_iff.mp
  rw [splitWs_flatten]
  exact List.filter_eq_nil_iff.mpr (fun c hc => by simp [h c hc])

/-- A sentence-ending character is not whitespace. -/
theorem sentEnd_not_ws (c : Char) (h : isSentEnd c = true) : isWs c = false := by
  rw [isSentEnd] at h
  simp only [Bool.or_eq_true, decide_eq_true_eq] at h
  rcases h with (rfl | rfl) | rfl <;> rfl

/-- A whitespace character is not sentence-ending. -/
theorem ws_not_sentEnd (c : Char) (h : isWs c = true) : isSentEnd c = false := by
  cases hse : isSentEnd c
  · rfl
  · rw [sentEnd_not_ws c hse] at h
    cases h

/-- The sentence split only deletes whitespace: the non-whitespace content of
the concatenated pieces is that of the input. -/
theorem splitSentencesGo_filter (s : JStr) :
    (∀ acc, (splitSentencesGo s (some acc)).flatten.filter (fun c => !isWs c) =
      (acc.reverse ++ s).filter (fun c => !isWs c)) ∧
    (splitSentencesGo s none).flatten.filter (fun c => !isWs c) =
      s.filter (fun c => !isWs c) := by
  induction s with
  | nil =>
    exact ⟨fun acc => by simp [splitSentencesGo], by simp [splitSentencesGo]⟩
  | cons c rest ih =>
    constructor
    · intro acc
      by_cases hb : isWs c && lookbehindSentEnd acc
      · have hb' : isWs c = true ∧ lookbehindSentEnd acc = true := by simpa using hb
        have hc : isWs c = true := hb'.1
        rw [splitSentencesGo]
        simp only [hb, if_true]
        rw [List.flatten_cons, List.filter_append, ih.2]
        rw [List.filter_append]
        congr 1
        simp [hc]
      · rw [splitSentencesGo]
        simp only [hb, Bool.false_eq_true, if_false]
        rw [ih.1 (c :: acc)]
        simp
    · by_cases hc : isWs c
      · rw [splitSentencesGo]
        simp only [hc, if_true]
        rw [ih.2]
        simp [hc]
      · rw [splitSentencesGo]
        simp only [hc, Bool.false_eq_true, if_false]
        rw [ih.1 [c]]
        simp [hc]

/-- The concatenated sentence pieces carry the input's non-whitespace
content. -/
theorem splitSentences_filter (t : JStr) :
    (splitSentences t).flatten.filter (fun c => !isWs c) =
      t.filter (fun c => !isWs c) := by
  rw [splitSentences, (splitSentencesGo_filter t).1]
  rfl

/-- Structure of the sentence pieces: every piece either contains a
non-whitespace character, is empty, or is the not-yet-terminated tail
(accumulator plus remaining input). -/
theorem splitSentencesGo_pieces (s : JStr) :
    (∀ acc p, p ∈ splitSentencesGo s (some acc) →
      (∃ c ∈ p, isWs c = false) ∨ p = [] ∨ p = acc.reverse ++ s) ∧
    (∀ p, p ∈ splitSentencesGo s none →
      (∃ c ∈ p, isWs c = false) ∨ p = []) := by
  induction s with
  | nil =>
    constructor
    · intro acc p hp
      simp [splitSentencesGo] at hp
      subst hp
      right; right; simp
    · intro p hp
      simp [splitSentencesGo] at hp
      tauto
  | cons c rest ih =>
    constructor
    · intro acc p hp
      by_cases hb : isWs c && lookbehindSentEnd acc
      · rw [splitSentencesGo] at hp
        simp only [hb, if_true] at hp
        rcases List.mem_cons.mp hp with rfl | hp
        · left
          have hlb : lookbehindSentEnd acc = true :=
            (show isWs c = true ∧ lookbehindSentEnd acc = true by simpa using hb).2
          match acc, hlb with
          | p0 :: acc', hlb =>
            have hse : isSentEnd p0 = true := hlb
            exact ⟨p0, by simp, sentEnd_not_ws p0 hse⟩
        · rcases ih.2 p hp with h | h
          · exact Or.inl h
          · exact Or.inr (Or.inl h)
      · rw [splitSentencesGo] at hp
        simp only [hb, Bool.false_eq_true, if_false] at hp
        rcases ih.1 (c :: acc) p hp with h | h | h
        · exact Or.inl h
        · exact Or.inr (Or.inl h)
        · right; right
          rw [h]
          simp
    · intro p hp
      by_cases hc : isWs c
      · rw [splitSentencesGo] at hp
        simp only [hc, if_true] at hp
        exact ih.2 p hp
      · rw [splitSentencesGo] at hp
        simp only [hc, Bool.false_eq_true, if_false] at hp
        rcases ih.1 [c] p hp with h | h | h
        · exact Or.inl h
        · exact Or.inr h
        · left
          refine ⟨c, ?_, by simpa using hc⟩
          rw [h]
          simp

/-- An all-whitespace string has no sentence boundary: the split returns the
whole string as its single piece. -/
theorem splitSentences_allws (t : JStr) (h : ∀ c ∈ t, isWs c = true) :
    splitSentences t = [t] := by
  have main : ∀ (s acc : JStr), (∀ c ∈ s, isWs c = true) →
      (∀ c ∈ acc, isWs c = true) →
      splitSentencesGo s (some acc) = [acc.reverse ++ s] := by
    intro s
    induction s with
    | nil =>
      intro acc _ _
      simp [splitSentencesGo]
    | cons c rest ih =>
      intro acc hs hacc
      have hb : (isWs c && lookbehindSentEnd acc) = false := by
        cases hacc2 : acc with
        | nil => simp [lookbehindSentEnd]
        | cons p acc' =>
          have hp : isWs p = true := by
            apply hacc
            rw [hacc2]
            simp
          simp [lookbehindSentEnd, ws_not_sentEnd p hp]
      rw [splitSentencesGo]
      simp only [hb, Bool.false_eq_true, if_false]
      rw [ih (c :: acc) (fun d hd => hs d (List.mem_cons_of_mem c hd))
        (fun d hd => by
          rcases List.mem_cons.mp hd with rfl | hd
          · exact hs _ (List.mem_cons_self _ _)
          · exact hacc d hd)]
      simp
  rw [splitSentences, main t [] h (fun d hd => absurd hd (List.not_mem_nil d))]
  rfl

/-- The word-loop chunks carry exactly the non-whitespace content of the
pending piece and the remaining words, in order. -/
theorem chunkWordLoop_filter (k : ℕ) (words : List JStr) :
    ∀ piece : JStr,
      (chunkWordLoop k words piece).flatten.filter (fun c => !isWs c) =
        (piece ++ words.flatten).filter (fun c => !isWs c) := by
  have hsp : List.filter (fun c => !isWs c) [' '] = [] := rfl
  induction words with
  | nil =>
    intro piece
    by_cases hp : piece = ([] : JStr)
    · simp [chunkWordLoop, hp]
    · rw [chunkWordLoop, if_pos hp]
      simp [jsTrim_filter]
  | cons word words ih =>
    intro piece
    rw [chunkWordLoop]
    by_cases hc : (piece ++ ' ' :: word).length > k
    · rw [if_pos hc, List.flatten_append, List.filter_append, ih word]
      by_cases hp : piece = ([] : JStr)
      · subst hp
        simp [List.flatten_cons]
      · rw [if_pos hp]
        rw [show ([jsTrim piece] : List JStr).flatten = jsTrim piece by simp]
        rw [jsTrim_filter, List.flatten_cons, List.filter_append]
        simp [List.filter_append]
    · rw [if_neg hc, ih]
      by_cases hp : piece = ([] : JStr)
      · subst hp
        simp [List.flatten_cons]
      · rw [if_pos hp]
        have hspc : (fun c => !isWs c) ' ' = false := rfl
        simp [List.filter_append, List.flatten_cons, List.filter_cons, hspc,
          List.append_assoc]

/-- Every word-loop chunk is non-empty, given whitespace-free words and a
pending piece that is empty or has non-whitespace content. -/
theorem chunkWordLoop_ne_nil (k : ℕ) :
    ∀ (words : List JStr) (piece : JStr),
      (∀ w ∈ words, ∀ c ∈ w, isWs c = false) →
      (piece = [] ∨ ∃ c ∈ piece, isWs c = false) →
      ∀ ch ∈ chunkWordLoop k words piece, ch ≠ [] := by
  intro words
  induction words with
  | nil =>
    intro piece _ hpiece ch hch
    rw [chunkWordLoop] at hch
    by_cases hp : piece = ([] : JStr)
    · rw [if_neg (by simpa using hp)] at hch
      exact absurd hch (List.not_mem_nil ch)
    · rw [if_pos hp] at hch
      rcases List.mem_cons.mp hch with rfl | hch
      · rcases hpiece with h | h
        · exact absurd h hp
        · exact jsTrim_ne_nil piece h
      · exact absurd hch (List.not_mem_nil ch)
  | cons word words ih =>
    intro piece hwords hpiece ch hch
    have hwordinv : word = [] ∨ ∃ c ∈ word, isWs c = false := by
      cases word with
      | nil => exact Or.inl rfl
      | cons a l =>
        exact Or.inr ⟨a, List.mem_cons_self a l,
          hwords (a :: l) (List.mem_cons_self _ _) a (List.mem_cons_self a l)⟩
    have hwords' : ∀ w ∈ words, ∀ c ∈ w, isWs c = false :=
      fun w hw => hwords w (List.mem_cons_of_mem _ hw)
    rw [chunkWordLoop] at hch
    by_cases hc : (piece ++ ' ' :: word).length > k
    · rw [if_pos hc] at hch
      rcases List.mem_append.mp hch with hch | hch
      · by_cases hp : piece = ([] : JStr)
        · rw [if_neg (by simpa using hp)] at hch
          exact absurd hch (List.not_mem_nil ch)
        · rw [if_pos hp] at hch
          rcases List.mem_cons.mp hch with rfl | hch
          · rcases hpiece with h | h
            · exact absurd h hp
            · exact jsTrim_ne_nil piece h
          · exact absurd hch (List.not_mem_nil ch)
      · exact ih word hwords' hwordinv ch hch
    · rw [if_neg hc] at hch
      refine ih _ hwords' ?_ ch hch
      rcases hpiece with rfl | ⟨c, hc1, hc2⟩
      · have hred : (([] : JStr) ++ (if ([] : JStr) ≠ [] then [' '] else []) ++ word)
            = word := by simp
        rw [hred]
        exact hwordinv
      · exact Or.inr ⟨c, by simp [hc1], hc2⟩

/-- The word loop emits nothing when every word is empty (the all-whitespace
sentence case). -/
theorem chunkWordLoop_nil_of (k : ℕ) :
    ∀ (words : List JStr), (∀ w ∈ words, w = []) →
      chunkWordLoop k words [] = [] := by
  intro words
  induction words with
  | nil =>
    intro _
    rw [chunkWordLoop]
    simp
  | cons w ws ih =>
    intro h
    have hw : w = [] := h w (List.mem_cons_self _ _)
    subst hw
    have hws : ∀ w ∈ ws, w = [] := fun w hw => h w (List.mem_cons_of_mem _ hw)
    rw [chunkWordLoop]
    split
    · simpa using ih hws
    · simpa using ih hws

/-- The multiset of non-whitespace characters emitted by the sentence loop is
that of the pending chunk plus the remaining sentences (the loop can reorder
a pending chunk past word-loop output, so only the multiset is preserved). -/
theorem chunkSentenceLoop_filter (k : ℕ) :
    ∀ (sentences : List JStr) (chunk : JStr),
      (((chunkSentenceLoop k sentences chunk).flatten.filter
          (fun c => !isWs c) : List Char) : Multiset Char) =
        (((chunk ++ sentences.flatten).filter
          (fun c => !isWs c) : List Char) : Multiset Char) := by
  intro sentences
  induction sentences with
  | nil =>
    intro chunk
    by_cases hch : chunk = ([] : JStr)
    · simp [chunkSentenceLoop, hch]
    · rw [chunkSentenceLoop, if_pos hch]
      simp [jsTrim_filter]
  | cons sentence sentences ih =>
    intro chunk
    rw [chunkSentenceLoop]
    by_cases hlong : sentence.length > k
    · rw [if_pos hlong, List.flatten_append, List.filter_append, ← Multiset.coe_add]
      have hword : (chunkWordLoop k (splitWs sentence) []).flatten.filter
          (fun c => !isWs c) = sentence.filter (fun c => !isWs c) := by
        rw [chunkWordLoop_filter, List.nil_append, splitWs_flatten,
          List.filter_filter]
        simp
      rw [hword, ih chunk, List.flatten_cons]
      simp only [List.filter_append, ← Multiset.coe_add]
      abel
    · rw [if_neg hlong]
      by_cases hflush : chunk.length + sentence.length > k ∧ chunk.length > 0
      · rw [if_pos hflush, List.flatten_cons, List.filter_append,
          ← Multiset.coe_add, jsTrim_filter, ih sentence, List.flatten_cons]
        simp only [List.filter_append, ← Multiset.coe_add]
      · rw [if_neg hflush, ih, List.flatten_cons]
        by_cases hch : chunk = ([] : JStr)
        · subst hch
          simp
        · rw [if_pos hch]
          have hspc : (fun c => !isWs c) ' ' = false := rfl
          simp [List.filter_append, List.filter_cons, hspc, List.append_assoc]

/-- Every sentence-loop chunk is non-empty, given sentence pieces that are
empty or contain non-whitespace and a pending chunk likewise. -/
theorem chunkSentenceLoop_ne_nil (k : ℕ) :
    ∀ (sentences : List JStr) (chunk : JStr),
      (∀ s ∈ sentences, s = [] ∨ ∃ c ∈ s, isWs c = false) →
      (chunk = [] ∨ ∃ c ∈ chunk, isWs c = false) →
      ∀ ch ∈ chunkSentenceLoop k sentences chunk, ch ≠ [] := by
  intro sentences
  induction sentences with
  | nil =>
    intro chunk _ hchunk ch hch
    rw [chunkSentenceLoop] at hch
    by_cases hc : chunk = ([] : JStr)
    · rw [if_neg (by simpa using hc)] at hch
      exact absurd hch (List.not_mem_nil ch)
    · rw [if_pos hc] at hch
      rcases List.mem_cons.mp hch with rfl | hch
      · rcases hchunk with h | h
        · exact absurd h hc
        · exact jsTrim_ne_nil chunk h
      · exact absurd hch (List.not_mem_nil ch)
  | cons sentence sentences ih =>
    intro chunk hsent hchunk ch hch
    have hsentinv : sentence = [] ∨ ∃ c ∈ sentence, isWs c = false :=
      hsent sentence (List.mem_cons_self _ _)
    have hsent' : ∀ s ∈ sentences, s = [] ∨ ∃ c ∈ s, isWs c = false :=
      fun s hs => hsent s (List.mem_cons_of_mem _ hs)
    rw [chunkSentenceLoop] at hch
    by_cases hlong : sentence.length > k
    · rw [if_pos hlong] at hch
      rcases List.mem_append.mp hch with hch | hch
      · exact chunkWordLoop_ne_nil k (splitWs sentence) []
          (splitWs_pieces_nonws sentence) (Or.inl rfl) ch hch
      · exact ih chunk hsent' hchunk ch hch
    · rw [if_neg hlong] at hch
      by_cases hflush : chunk.length + sentence.length > k ∧ chunk.length > 0
      · rw [if_pos hflush] at hch
        rcases List.mem_cons.mp hch with rfl | hch
        · rcases hchunk with h | h
          · rw [h] at hflush
            exact absurd hflush.2 (by simp)
          · exact jsTrim_ne_nil chunk h
        · exact ih sentence hsent' hsentinv ch hch
      · rw [if_neg hflush] at hch
        refine ih _ hsent' ?_ ch hch
        rcases hchunk with rfl | ⟨c, hc1, hc2⟩
        · have hred : (([] : JStr) ++ (if ([] : JStr) ≠ [] then [' '] else [])
              ++ sentence) = sentence := by simp
          rw [hred]
          exact hsentinv
        · exact Or.inr ⟨c, by simp [hc1], hc2⟩

/-- The sentence pieces of a text containing non-whitespace are each empty or
contain non-whitespace. -/
theorem splitSentences_pieces (t : JStr) (hnz : ∃ c ∈ t, isWs c = false) :
    ∀ p ∈ splitSentences t, p = [] ∨ ∃ c ∈ p, isWs c = false := by
  intro p hp
  rcases (splitSentencesGo_pieces t).1 [] p hp with h | h | h
  · exact Or.inr h
  · exact Or.inl h
  · right
    rw [h]
    simpa using hnz

/-- C4 (amended): for every non-empty input every chunk returned by
`chunkText` is non-empty (the empty input returns the singleton empty
chunk), and the multiset of non-whitespace characters of the concatenated
chunks equals that of the input — full coverage with no drops and no
duplication, but only up to whitespace (runs collapse, leading/trailing
whitespace is trimmed) and up to chunk order (a pending short sentence can
be flushed after the word-loop output of a later long sentence). -/
theorem claim_C4_amended (text : JStr) (chunkSize : ℕ) (hk : 0 < chunkSize) :
    (text ≠ [] → ∀ ch ∈ chunkText text chunkSize, ch ≠ []) ∧
    (((chunkText text chunkSize).flatten.filter
        (fun c => !isWs c) : List Char) : Multiset Char) =
      ((text.filter (fun c => !isWs c) : List Char) : Multiset Char) := by
  constructor
  · intro htext ch hch
    rw [chunkText] at hch
    by_cases hshort : text = [] ∨ text.length ≤ chunkSize
    · rw [if_pos hshort] at hch
      rcases List.mem_cons.mp hch with rfl | hch
      · exact htext
      · exact absurd hch (List.not_mem_nil ch)
    · rw [if_neg hshort] at hch
      by_cases hall : ∀ c ∈ text, isWs c = true
      · rw [splitSentences_allws text hall] at hch
        have hlong : text.length > chunkSize := by
          rcases not_or.mp hshort with ⟨_, h2⟩
          exact lt_of_not_le h2
        rw [chunkSentenceLoop, if_pos hlong,
          chunkWordLoop_nil_of chunkSize (splitWs text) (splitWs_allws text hall),
          chunkSentenceLoop] at hch
        simp at hch
      · push_neg at hall
        have hnz : ∃ c ∈ text, isWs c = false := by
          obtain ⟨c, hc1, hc2⟩ := hall
          exact ⟨c, hc1, by simpa using hc2⟩
        exact chunkSentenceLoop_ne_nil chunkSize (splitSentences text) []
          (splitSentences_pieces text hnz) (Or.inl rfl) ch hch
  · rw [chunkText]
    by_cases hshort : text = [] ∨ text.length ≤ chunkSize
    · rw [if_pos hshort]
      simp
    · rw [if_neg hshort]
      rw [chunkSentenceLoop_filter chunkSize (splitSentences text) [],
        List.nil_append, splitSentences_filter]

/-- C4 (amended) witness at a concrete two-sentence text and target size 10. -/
theorem claim_C4_amended_witness :
    (("Hello world. This is a test.".toList : JStr) ≠ [] →
      ∀ ch ∈ chunkText "Hello world. This is a test.".toList 10, ch ≠ []) ∧
    (((chunkText "Hello world. This is a test.".toList 10).flatten.filter
        (fun c => !isWs c) : List Char) : Multiset Char) =
      (("Hello world. This is a test.".toList.filter
        (fun c => !isWs c) : List Char) : Multiset Char) :=
  claim_C4_amended "Hello world. This is a test.".toList 10 (by decide)
